import Mathlib

/-!
Verification of the stock-reservation and order-lifecycle engine of the
`muhammadheryan/e-commerce` repository.

The Go repository layer (`repository/warehouse/warehouse_repository.go`,
`repository/order`), the order application layer (`application/order/order.go`),
the transport layer (handler validation and authentication) and the RabbitMQ
expiration consumer (`thirdparty/rabbitmq/consumer.go`) are shallowly embedded
as executable Lean functions over an explicit ledger state.  Database tables
are lists of rows; SQL statements become the corresponding list traversals in
table order (the locking SELECT in `ReserveStockTx` carries no ORDER BY, so
row order is exactly the order of the list).  Quantities and identifiers live
in `Int`/`Nat`, matching the exact arithmetic of the underlying BIGINT
columns.
-/

namespace ECom

/-- A row of the `warehouse` table: identity and active status
(`constant.WarehouseStatusActive`). -/
structure Warehouse where
  id : Int
  active : Bool
deriving Repr, DecidableEq

/-- A row of the `warehouse_stock` table: per (warehouse, product) physical
stock and currently reserved quantity (`model.WarehouseStock`). -/
structure StockRow where
  id : Int
  warehouseID : Int
  productID : Nat
  stock : Int
  reserved : Int
deriving Repr, DecidableEq

/-- A row of the `stock_reservation` table (`model.Reservation`), one
reservation fragment tied to an order. -/
structure Resv where
  id : Int
  orderID : Nat
  warehouseID : Int
  productID : Nat
  quantity : Int
  expiresAt : Int
deriving Repr, DecidableEq

/-- The ledger state: the `warehouse`, `warehouse_stock` and
`stock_reservation` tables, plus the auto-increment counter used for new
reservation ids. -/
structure Ledger where
  warehouses : List Warehouse
  stocks : List StockRow
  resvs : List Resv
  nextResvID : Int
deriving Repr, DecidableEq

/-- The JOIN condition `ws.warehouse_id = w.id AND w.status = active`. -/
def isActiveWarehouse (ws : List Warehouse) (wid : Int) : Bool :=
  ws.any (fun w => w.id == wid && w.active)

/-- The rows returned by
`SELECT ... FROM warehouse_stock ws JOIN warehouse w ON ws.warehouse_id = w.id
WHERE ws.product_id = ? AND w.status = ?` — in table order, because the query
has no ORDER BY clause. -/
def activeRowsFor (L : Ledger) (pid : Nat) : List StockRow :=
  L.stocks.filter (fun r => r.productID == pid && isActiveWarehouse L.warehouses r.warehouseID)

/-- `GetTotalAvailableStockTx`: `SELECT COALESCE(SUM(ws.stock - ws.reserved),0)`
over the active rows of the product. -/
def GetTotalAvailableStockTx (L : Ledger) (pid : Nat) : Int :=
  ((activeRowsFor L pid).map (fun r => r.stock - r.reserved)).sum

/-- `UPDATE warehouse_stock SET reserved = reserved + d WHERE id = rid`. -/
def updateReservedByID (rows : List StockRow) (rid : Int) (d : Int) : List StockRow :=
  rows.map (fun r => if r.id = rid then { r with reserved := r.reserved + d } else r)

/-- The ledger error distinguished by `ReserveStockTx`
(`constant.ErrInsufficientStock`). -/
inductive LedgerErr where
  | insufficientStock
deriving Repr, DecidableEq

deriving instance DecidableEq for Except

/-- One iteration body of the allocation loop of `ReserveStockTx`: reserve
`alloc` units on the snapshot row `w` and insert the reservation fragment. -/
def allocStep (oid : Nat) (pid : Nat) (exp : Int) (L : Ledger) (w : StockRow)
    (alloc : Int) : Ledger :=
  { L with
    stocks := updateReservedByID L.stocks w.id alloc
    resvs := L.resvs ++ [⟨L.nextResvID, oid, w.warehouseID, pid, alloc, exp⟩]
    nextResvID := L.nextResvID + 1 }

/-- The allocation loop of `ReserveStockTx`: walk the snapshot rows in order;
skip rows without available capacity; otherwise allocate
`min(available, needed)`, update the row's `reserved`, insert one fragment,
and stop as soon as the remaining need is `≤ 0`.  Returns the updated ledger
and the remaining need. -/
def reserveLoop (oid : Nat) (pid : Nat) (exp : Int) :
    List StockRow → Int → Ledger → Ledger × Int
  | [], needed, L => (L, needed)
  | w :: rest, needed, L =>
    let avail := w.stock - w.reserved
    if avail ≤ 0 then reserveLoop oid pid exp rest needed L
    else
      let alloc := if avail > needed then needed else avail
      let L' := allocStep oid pid exp L w alloc
      if needed - alloc ≤ 0 then (L', needed - alloc)
      else reserveLoop oid pid exp rest (needed - alloc) L'

/-- `ReserveStockTx`: lock the product's active rows (in database return
order), run the greedy allocation loop, and fail with `InsufficientStock`
when need remains. -/
def ReserveStockTx (L : Ledger) (oid : Nat) (pid : Nat) (q : Int) (exp : Int) :
    Except LedgerErr Ledger :=
  let res := reserveLoop oid pid exp (activeRowsFor L pid) q L
  if res.2 > 0 then .error .insufficientStock else .ok res.1

/-- `GetReservationsByOrderTx`:
`SELECT ... FROM stock_reservation WHERE order_id = ? FOR UPDATE`. -/
def GetReservationsByOrderTx (L : Ledger) (oid : Nat) : List Resv :=
  L.resvs.filter (fun f => f.orderID == oid)

/-- One iteration of `CommitReservationsTx`:
`UPDATE warehouse_stock SET stock = stock - q, reserved = reserved - q
WHERE warehouse_id = ? AND product_id = ?` followed by
`DELETE FROM stock_reservation WHERE id = ?`. -/
def applyCommitFrag (L : Ledger) (f : Resv) : Ledger :=
  { L with
    stocks := L.stocks.map (fun r =>
      if r.warehouseID = f.warehouseID ∧ r.productID = f.productID then
        { r with stock := r.stock - f.quantity, reserved := r.reserved - f.quantity }
      else r)
    resvs := L.resvs.filter (fun g => !(g.id == f.id)) }

/-- One iteration of `ReleaseReservationsTx`:
`UPDATE warehouse_stock SET reserved = reserved - q
WHERE warehouse_id = ? AND product_id = ?` followed by
`DELETE FROM stock_reservation WHERE id = ?`. -/
def applyReleaseFrag (L : Ledger) (f : Resv) : Ledger :=
  { L with
    stocks := L.stocks.map (fun r =>
      if r.warehouseID = f.warehouseID ∧ r.productID = f.productID then
        { r with reserved := r.reserved - f.quantity }
      else r)
    resvs := L.resvs.filter (fun g => !(g.id == f.id)) }

/-- `CommitReservationsTx`: load the order's fragments, then for each one
consume stock and delete the fragment. -/
def CommitReservationsTx (L : Ledger) (oid : Nat) : Ledger :=
  (GetReservationsByOrderTx L oid).foldl applyCommitFrag L

/-- `ReleaseReservationsTx`: load the order's fragments, then for each one
return the reserved claim (stock untouched) and delete the fragment. -/
def ReleaseReservationsTx (L : Ledger) (oid : Nat) : Ledger :=
  (GetReservationsByOrderTx L oid).foldl applyReleaseFrag L

/-- Sum of the reservation quantities recorded in the journal for one
(warehouse, product) key. -/
def keySum (resvs : List Resv) (wid : Int) (pid : Nat) : Int :=
  ((resvs.filter (fun f => f.warehouseID == wid && f.productID == pid)).map
    (fun f => f.quantity)).sum

/-- Sum of the reservation quantities recorded in the journal for one order. -/
def orderQtySum (L : Ledger) (oid : Nat) : Int :=
  ((GetReservationsByOrderTx L oid).map (fun f => f.quantity)).sum

/-- The per-row ledger invariant of the specification:
`0 ≤ reserved ≤ stock`. -/
def RowInv (r : StockRow) : Prop :=
  0 ≤ r.reserved ∧ r.reserved ≤ r.stock

instance (r : StockRow) : Decidable (RowInv r) := by
  unfold RowInv; infer_instance

/-- Every warehouse-stock row of the ledger satisfies `0 ≤ reserved ≤ stock`. -/
def LedgerInv (L : Ledger) : Prop :=
  ∀ r ∈ L.stocks, RowInv r

instance (L : Ledger) : Decidable (LedgerInv L) := by
  unfold LedgerInv; infer_instance

/-- Consistency of a committed ledger state: the row invariant, a journal
whose fragments are nonnegative and backed by the reserved counters, fresh
and distinct reservation ids, and the schema key constraints of
`warehouse_stock` (primary-key ids, one row per (warehouse, product)). -/
def Consistent (L : Ledger) : Prop :=
  LedgerInv L ∧
  (∀ f ∈ L.resvs, 0 ≤ f.quantity) ∧
  (∀ r ∈ L.stocks, keySum L.resvs r.warehouseID r.productID ≤ r.reserved) ∧
  (∀ f ∈ L.resvs, f.id < L.nextResvID) ∧
  (L.resvs.map (fun f => f.id)).Nodup ∧
  (L.stocks.map (fun r => r.id)).Nodup ∧
  (L.stocks.map (fun r => (r.warehouseID, r.productID))).Nodup

instance (L : Ledger) : Decidable (Consistent L) := by
  unfold Consistent; infer_instance

/-- A repository-level ledger operation, as invoked through the order
application layer. -/
inductive Op where
  | allocate (oid : Nat) (pid : Nat) (q : Int) (exp : Int)
  | commit (oid : Nat)
  | release (oid : Nat)
deriving Repr, DecidableEq

/-- Committed effect of one operation.  A failed allocation leaves the
committed state unchanged because the surrounding transaction rolls back. -/
def applyOp (L : Ledger) : Op → Ledger
  | .allocate oid pid q exp =>
    match ReserveStockTx L oid pid q exp with
    | .ok L' => L'
    | .error _ => L
  | .commit oid => CommitReservationsTx L oid
  | .release oid => ReleaseReservationsTx L oid

/-- Committed state after a sequence of ledger operations. -/
def runOps (L : Ledger) (ops : List Op) : Ledger :=
  ops.foldl applyOp L

/-- An allocation request with nonnegative quantity (commit and release carry
no quantity). -/
def OpQtyNonneg : Op → Prop
  | .allocate _ _ q _ => 0 ≤ q
  | .commit _ => True
  | .release _ => True

instance (op : Op) : Decidable (OpQtyNonneg op) := by
  cases op <;> (unfold OpQtyNonneg; infer_instance)

/-! ### Order application layer (`application/order/order.go`) -/

/-- `constant.OrderStatus` (`Pending = 1`, `Completed = 2`, `Canceled = 3`). -/
inductive OrderStatus where
  | pending
  | completed
  | canceled
deriving Repr, DecidableEq

/-- `constant.ErrorType` (iota order of `constant/error.go`). -/
inductive ErrorType where
  | successful
  | errInternal
  | errNotFound
  | errInvalidRequest
  | errUnauthorize
  | errCredentialExists
  | errInvalidPassword
  | errInsufficientStock
  | errInvalidOrderStatus
deriving Repr, DecidableEq

/-- A row of the `order` table (`model.OrderDetail` plus expiry). -/
structure Order where
  id : Nat
  userID : Nat
  status : OrderStatus
deriving Repr, DecidableEq

/-- A row of the `order_item` table. -/
structure OrderItem where
  orderID : Nat
  productID : Nat
  quantity : Int
deriving Repr, DecidableEq

/-- `model.OrderItemRequest`. -/
structure OrderItemRequest where
  productID : Nat
  quantity : Int
deriving Repr, DecidableEq

/-- `model.OrderResponse`. -/
structure OrderResponse where
  orderID : Nat
  expiresAt : Int
deriving Repr, DecidableEq

/-- Application-level persistent state: the `order` and `order_item` tables,
the order auto-increment counter, and the ledger. -/
structure AppState where
  orders : List Order
  orderItems : List OrderItem
  nextOrderID : Nat
  ledger : Ledger
deriving Repr, DecidableEq

/-- `GetOrderDetailTx`: `SELECT id, user_id, status FROM order WHERE id = ?`;
`none` models the `sql.ErrNoRows` scan failure. -/
def GetOrderDetailTx (orders : List Order) (oid : Nat) : Option Order :=
  orders.find? (fun od => od.id == oid)

/-- `UpdateOrderStatusTx`: `UPDATE order SET status = ? WHERE id = ?`. -/
def UpdateOrderStatusTx (orders : List Order) (oid : Nat) (st : OrderStatus) :
    List Order :=
  orders.map (fun od => if od.id = oid then { od with status := st } else od)

/-- `PayOrder` of `orderAppImpl`: load the order (any load error becomes
`ErrInternal`), reject a non-Pending status with `ErrInvalidOrderStatus`,
otherwise commit the reservations and mark the order Completed.  Error paths
roll the transaction back, leaving the state unchanged. -/
def PayOrder (s : AppState) (oid : Nat) : Except ErrorType Unit × AppState :=
  match GetOrderDetailTx s.orders oid with
  | none => (.error .errInternal, s)
  | some od =>
    if od.status ≠ OrderStatus.pending then (.error .errInvalidOrderStatus, s)
    else
      (.ok (), { s with
        ledger := CommitReservationsTx s.ledger oid
        orders := UpdateOrderStatusTx s.orders oid .completed })

/-- `CancelOrder` of `orderAppImpl`: symmetric to `PayOrder`, releasing the
reservations and marking the order Canceled. -/
def CancelOrder (s : AppState) (oid : Nat) : Except ErrorType Unit × AppState :=
  match GetOrderDetailTx s.orders oid with
  | none => (.error .errInternal, s)
  | some od =>
    if od.status ≠ OrderStatus.pending then (.error .errInvalidOrderStatus, s)
    else
      (.ok (), { s with
        ledger := ReleaseReservationsTx s.ledger oid
        orders := UpdateOrderStatusTx s.orders oid .canceled })

/-- The advisory availability loop of `CreateOrder`: fail at the first item
whose requested quantity exceeds `GetTotalAvailableStockTx`. -/
def advisoryCheck (L : Ledger) : List OrderItemRequest → Bool
  | [] => true
  | it :: rest =>
    if GetTotalAvailableStockTx L it.productID < it.quantity then false
    else advisoryCheck L rest

/-- The reservation loop of `CreateOrder`: reserve stock per item in order;
any `InsufficientStock` aborts. -/
def reserveItems (oid : Nat) (exp : Int) :
    List OrderItemRequest → Ledger → Except ErrorType Ledger
  | [], L => .ok L
  | it :: rest, L =>
    match ReserveStockTx L oid it.productID it.quantity exp with
    | .error _ => .error .errInsufficientStock
    | .ok L' => reserveItems oid exp rest L'

/-- `CreateOrder` of `orderAppImpl`: reject an empty item list before opening
the transaction; advisory-check availability per item; insert the Pending
order and its items; reserve stock per item; commit.  Every error path rolls
back to the initial state.  `exp` is the computed expiration timestamp
(`now + config window`). -/
def CreateOrder (s : AppState) (uid : Nat) (items : List OrderItemRequest)
    (exp : Int) : Except ErrorType OrderResponse × AppState :=
  if items.length = 0 then (.error .errInvalidRequest, s)
  else if !advisoryCheck s.ledger items then (.error .errInsufficientStock, s)
  else
    let oid := s.nextOrderID
    match reserveItems oid exp items s.ledger with
    | .error e => (.error e, s)
    | .ok L' =>
      (.ok ⟨oid, exp⟩,
        { orders := s.orders ++ [⟨oid, uid, .pending⟩]
          orderItems := s.orderItems ++ items.map (fun it => ⟨oid, it.productID, it.quantity⟩)
          nextOrderID := oid + 1
          ledger := L' })

/-! ### Transport layer (`transport` REST handlers and request validation) -/

/-- The `go-playground/validator` tags on `model.OrderRequest`: every item
must have a nonzero product id (`required`) and a positive quantity
(`required,gt=0`). -/
def validateOrderRequest (items : List OrderItemRequest) : Bool :=
  items.all (fun it => it.productID != 0 && decide (0 < it.quantity))

/-- The `CreateOrder` REST handler: validate the decoded request, check the
authenticated user id, then call the application layer. -/
def handlerCreateOrder (s : AppState) (uid : Nat) (items : List OrderItemRequest)
    (exp : Int) : Except ErrorType OrderResponse × AppState :=
  if !validateOrderRequest items then (.error .errInvalidRequest, s)
  else if uid = 0 then (.error .errUnauthorize, s)
  else CreateOrder s uid items exp

/-- The `PayOrder` REST handler: parse the path id, check the authenticated
user id (it is never compared with the order's owner), then call the
application layer. -/
def handlerPayOrder (s : AppState) (uid : Nat) (oid : Nat) :
    Except ErrorType Unit × AppState :=
  if uid = 0 then (.error .errUnauthorize, s)
  else PayOrder s oid

/-- The `CancelOrder` REST handler, symmetric to `handlerPayOrder`. -/
def handlerCancelOrder (s : AppState) (uid : Nat) (oid : Nat) :
    Except ErrorType Unit × AppState :=
  if uid = 0 then (.error .errUnauthorize, s)
  else CancelOrder s oid

/-! ### Expiration consumer (`thirdparty/rabbitmq/consumer.go`) -/

/-- `rabbitmq.OrderExpirationMessage`. -/
structure OrderExpirationMessage where
  orderID : Nat
  userID : Nat
  expiresAt : Int
deriving Repr, DecidableEq

/-- Outcome of the HTTP POST issued by `callCancelOrderAPI`: either the
request could not be performed (network error / timeout) or a status code
came back. -/
inductive CallResult where
  | netErr
  | status (code : Nat)
deriving Repr, DecidableEq

/-- `callCancelOrderAPI` returns an error exactly on a network failure or a
status code outside 200..499 (`resp.StatusCode < 200 || resp.StatusCode >= 500`). -/
def callCancelOrderAPIFails : CallResult → Bool
  | .netErr => true
  | .status code => code < 200 || 500 ≤ code

/-- What the consumer does with a delivery. -/
inductive MqAction where
  | ack
  | nackRequeue
deriving Repr, DecidableEq

/-- The per-message decision of `Consumer.Start`: a payload that fails to
decode is acknowledged and dropped; otherwise the cancel API is called and
the message is negatively acknowledged with requeue on failure, acknowledged
on success. -/
def handleExpirationMsg (decoded : Option OrderExpirationMessage)
    (call : CallResult) : MqAction :=
  match decoded with
  | none => .ack
  | some _ => if callCancelOrderAPIFails call then .nackRequeue else .ack

/-- The specification scenario: product 7 held by two active warehouses with
available stock 3 and 4. -/
def twoWarehouseLedger : Ledger :=
  { warehouses := [⟨10, true⟩, ⟨20, true⟩]
    stocks := [⟨1, 10, 7, 3, 0⟩, ⟨2, 20, 7, 4, 0⟩]
    resvs := []
    nextResvID := 1 }

/-- Expected outcome of allocating 5 units of product 7 for order 1 in
`twoWarehouseLedger`: 3 taken from the first-walked warehouse and 2 from the
second, one fragment each. -/
def twoWarehouseAllocated : Ledger :=
  { warehouses := [⟨10, true⟩, ⟨20, true⟩]
    stocks := [⟨1, 10, 7, 3, 3⟩, ⟨2, 20, 7, 4, 2⟩]
    resvs := [⟨1, 1, 10, 7, 3, 0⟩, ⟨2, 1, 20, 7, 2, 0⟩]
    nextResvID := 3 }

/-- Available capacity summed over a row list. -/
def availSum (rows : List StockRow) : Int :=
  (rows.map (fun r => r.stock - r.reserved)).sum

/-! ### Basic lemmas about the allocation loop -/

theorem availSum_nonneg {rows : List StockRow}
    (h : ∀ w ∈ rows, 0 ≤ w.stock - w.reserved) : 0 ≤ availSum rows := by
  refine List.sum_nonneg ?_
  intro x hx
  rcases List.mem_map.mp hx with ⟨w, hw, rfl⟩
  exact h w hw

theorem getTotalAvailableStockTx_eq (L : Ledger) (pid : Nat) :
    GetTotalAvailableStockTx L pid = availSum (activeRowsFor L pid) := rfl

theorem reserveLoop_snd (oid pid : Nat) (exp : Int) :
    ∀ (rows : List StockRow) (needed : Int) (L : Ledger), 0 ≤ needed →
      (∀ w ∈ rows, 0 ≤ w.stock - w.reserved) →
      (reserveLoop oid pid exp rows needed L).2 = max 0 (needed - availSum rows)
  | [], needed, L, hn, _ => by
    simp [reserveLoop, availSum]
    omega
  | w :: rest, needed, L, hn, hrows => by
    have hw : 0 ≤ w.stock - w.reserved := hrows w (List.mem_cons_self w rest)
    have hrest : ∀ x ∈ rest, 0 ≤ x.stock - x.reserved :=
      fun x hx => hrows x (List.mem_cons_of_mem w hx)
    have hrestSum : 0 ≤ availSum rest := availSum_nonneg hrest
    have hsum : availSum (w :: rest) = (w.stock - w.reserved) + availSum rest := by
      simp [availSum]
    rw [hsum]
    unfold reserveLoop
    by_cases h0 : w.stock - w.reserved ≤ 0
    · simp only [h0, if_pos]
      rw [reserveLoop_snd oid pid exp rest needed L hn hrest]
      omega
    · simp only [h0, if_neg, if_false]
      by_cases hgt : w.stock - w.reserved > needed
      · simp only [hgt, if_pos]
        have : needed - needed ≤ 0 := by omega
        simp only [this, if_pos]
        omega
      · simp only [hgt, if_neg, if_false]
        by_cases hbrk : needed - (w.stock - w.reserved) ≤ 0
        · simp only [hbrk, if_pos]
          omega
        · simp only [hbrk, if_neg, if_false]
          rw [reserveLoop_snd oid pid exp rest (needed - (w.stock - w.reserved))
            (allocStep oid pid exp L w (w.stock - w.reserved)) (by omega) hrest]
          omega

theorem activeRowsFor_sub {L : Ledger} {pid : Nat} :
    ∀ w ∈ activeRowsFor L pid, w ∈ L.stocks := by
  intro w hw
  exact (List.mem_filter.mp hw).1

theorem activeRowsFor_avail_nonneg {L : Ledger} {pid : Nat} (hinv : LedgerInv L) :
    ∀ w ∈ activeRowsFor L pid, 0 ≤ w.stock - w.reserved := by
  intro w hw
  have := hinv w (activeRowsFor_sub w hw)
  rcases this with ⟨h1, h2⟩
  omega

theorem orderQtySum_allocStep (oid pid : Nat) (exp : Int) (L : Ledger)
    (w : StockRow) (a : Int) :
    orderQtySum (allocStep oid pid exp L w a) oid = orderQtySum L oid + a := by
  simp [orderQtySum, allocStep, GetReservationsByOrderTx, List.filter_append]

theorem reserveLoop_orderQtySum (oid pid : Nat) (exp : Int) :
    ∀ (rows : List StockRow) (needed : Int) (L : Ledger),
      orderQtySum (reserveLoop oid pid exp rows needed L).1 oid =
        orderQtySum L oid + (needed - (reserveLoop oid pid exp rows needed L).2)
  | [], needed, L => by simp [reserveLoop]
  | w :: rest, needed, L => by
    unfold reserveLoop
    by_cases h0 : w.stock - w.reserved ≤ 0
    · simp only [h0, if_pos]
      exact reserveLoop_orderQtySum oid pid exp rest needed L
    · simp only [h0, if_neg, if_false]
      set alloc := if w.stock - w.reserved > needed then needed else w.stock - w.reserved with halloc
      by_cases hbrk : needed - alloc ≤ 0
      · simp only [hbrk, if_pos]
        rw [orderQtySum_allocStep]
        ring
      · simp only [hbrk, if_neg, if_false]
        rw [reserveLoop_orderQtySum oid pid exp rest (needed - alloc)
          (allocStep oid pid exp L w alloc)]
        rw [orderQtySum_allocStep]
        ring

/-- The allocation decisions taken by the loop of `ReserveStockTx` on a row
snapshot: the walked row together with the allocated amount, in walk order. -/
def greedyAllocs : List StockRow → Int → List (StockRow × Int)
  | [], _ => []
  | w :: rest, needed =>
    let avail := w.stock - w.reserved
    if avail ≤ 0 then greedyAllocs rest needed
    else
      let alloc := if avail > needed then needed else avail
      if needed - alloc ≤ 0 then [(w, alloc)]
      else (w, alloc) :: greedyAllocs rest (needed - alloc)

/-- The reservation fragments inserted for a list of allocation decisions,
with consecutive auto-increment ids starting at `nid`. -/
def mkFrags (nid : Int) (oid pid : Nat) (exp : Int) : List (StockRow × Int) → List Resv
  | [] => []
  | p :: rest => ⟨nid, oid, p.1.warehouseID, pid, p.2, exp⟩ :: mkFrags (nid + 1) oid pid exp rest

/-- The `reserved`-counter updates performed for a list of allocation
decisions. -/
def applyAllocsStocks (stocks : List StockRow) (allocs : List (StockRow × Int)) :
    List StockRow :=
  allocs.foldl (fun st p => updateReservedByID st p.1.id p.2) stocks

/-- Total quantity over a list of allocation decisions. -/
def allocTotal (allocs : List (StockRow × Int)) : Int :=
  (allocs.map (fun p => p.2)).sum

/-- Quantity allocated to the stock row with id `rid`. -/
def allocDelta (allocs : List (StockRow × Int)) (rid : Int) : Int :=
  ((allocs.filter (fun p => p.1.id == rid)).map (fun p => p.2)).sum

/-- Quantity allocated to rows of warehouse `wid`. -/
def wAllocSum (allocs : List (StockRow × Int)) (wid : Int) : Int :=
  ((allocs.filter (fun p => p.1.warehouseID == wid)).map (fun p => p.2)).sum

/-- Total physical stock recorded across all warehouse-stock rows. -/
def stocksTotal (L : Ledger) : Int :=
  (L.stocks.map (fun r => r.stock)).sum

/-- A consistent one-row ledger used to exhibit the effect of a
negative-quantity allocation request. -/
def negQtyLedger : Ledger :=
  { warehouses := [⟨1, true⟩]
    stocks := [⟨1, 1, 1, 5, 0⟩]
    resvs := []
    nextResvID := 1 }

/-- An application state with no persisted orders. -/
def emptyOrdersState : AppState :=
  { orders := [], orderItems := [], nextOrderID := 1
    ledger := { warehouses := [⟨10, true⟩, ⟨20, true⟩]
                stocks := [⟨1, 10, 7, 3, 0⟩, ⟨2, 20, 7, 4, 0⟩]
                resvs := []
                nextResvID := 1 } }

/-- An application state whose only order is already Canceled. -/
def canceledOrderState : AppState :=
  { orders := [⟨1, 9, .canceled⟩], orderItems := [], nextOrderID := 2
    ledger := { warehouses := [⟨10, true⟩, ⟨20, true⟩]
                stocks := [⟨1, 10, 7, 3, 0⟩, ⟨2, 20, 7, 4, 0⟩]
                resvs := []
                nextResvID := 1 } }

/-- An application state whose only order, owned by user 9, is Pending with
its stock reserved. -/
def pendingOrderState : AppState :=
  { orders := [⟨1, 9, .pending⟩], orderItems := [⟨1, 7, 5⟩], nextOrderID := 2
    ledger := { warehouses := [⟨10, true⟩, ⟨20, true⟩]
                stocks := [⟨1, 10, 7, 3, 3⟩, ⟨2, 20, 7, 4, 2⟩]
                resvs := [⟨1, 1, 10, 7, 3, 0⟩, ⟨2, 1, 20, 7, 2, 0⟩]
                nextResvID := 3 } }

/-- A ledger whose active rows for product 1 sit in the table in descending
warehouse order (warehouse 2 first, then warehouse 1). -/
def unorderedLedger : Ledger :=
  { warehouses := [⟨1, true⟩, ⟨2, true⟩]
    stocks := [⟨5, 2, 1, 1, 0⟩, ⟨6, 1, 1, 1, 0⟩]
    resvs := []
    nextResvID := 1 }

/-- Result of allocating 2 units of product 1 for order 1 in
`unorderedLedger`: the walk takes warehouse 2 first. -/
def unorderedAllocated : Ledger :=
  { warehouses := [⟨1, true⟩, ⟨2, true⟩]
    stocks := [⟨5, 2, 1, 1, 1⟩, ⟨6, 1, 1, 1, 1⟩]
    resvs := [⟨1, 1, 2, 1, 1, 0⟩, ⟨2, 1, 1, 1, 1, 0⟩]
    nextResvID := 3 }

/-! ### Helper lemmas for consistency preservation -/

theorem updateReservedByID_map_id (rows : List StockRow) (rid d : Int) :
    (updateReservedByID rows rid d).map (fun r => r.id) = rows.map (fun r => r.id) := by
  rw [updateReservedByID, List.map_map]
  refine List.map_congr_left ?_
  intro r _
  simp only [Function.comp]
  split <;> rfl

theorem updateReservedByID_map_key (rows : List StockRow) (rid d : Int) :
    (updateReservedByID rows rid d).map (fun r => (r.warehouseID, r.productID)) =
      rows.map (fun r => (r.warehouseID, r.productID)) := by
  rw [updateReservedByID, List.map_map]
  refine List.map_congr_left ?_
  intro r _
  simp only [Function.comp]
  split <;> rfl

theorem mem_updateReservedByID_of_ne {rows : List StockRow} {r : StockRow}
    {rid d : Int} (hr : r ∈ rows) (hne : r.id ≠ rid) :
    r ∈ updateReservedByID rows rid d := by
  rw [updateReservedByID]
  refine List.mem_map.mpr ⟨r, hr, ?_⟩
  rw [if_neg hne]

theorem stockRow_inj_id {L : Ledger} (hC : Consistent L) {r w : StockRow}
    (hr : r ∈ L.stocks) (hw : w ∈ L.stocks) (h : r.id = w.id) : r = w :=
  List.inj_on_of_nodup_map hC.2.2.2.2.2.1 hr hw h

theorem stockRow_inj_key {L : Ledger} (hC : Consistent L) {r w : StockRow}
    (hr : r ∈ L.stocks) (hw : w ∈ L.stocks)
    (h1 : r.warehouseID = w.warehouseID) (h2 : r.productID = w.productID) : r = w :=
  List.inj_on_of_nodup_map hC.2.2.2.2.2.2 hr hw (by rw [Prod.mk.injEq]; exact ⟨h1, h2⟩)

theorem keySum_nil (wid : Int) (pid : Nat) : keySum [] wid pid = 0 := rfl

theorem keySum_cons (g : Resv) (t : List Resv) (wid : Int) (pid : Nat) :
    keySum (g :: t) wid pid =
      (if g.warehouseID = wid ∧ g.productID = pid then g.quantity else 0) +
        keySum t wid pid := by
  by_cases h : g.warehouseID = wid ∧ g.productID = pid
  · rw [if_pos h]
    have hb : (g.warehouseID == wid && g.productID == pid) = true := by
      simp [h.1, h.2]
    simp [keySum, List.filter_cons, hb]
  · rw [if_neg h]
    have hb : (g.warehouseID == wid && g.productID == pid) = false := by
      rcases not_and_or.mp h with h1 | h1 <;> simp [h1]
    simp [keySum, List.filter_cons, hb]

theorem keySum_append (l1 l2 : List Resv) (wid : Int) (pid : Nat) :
    keySum (l1 ++ l2) wid pid = keySum l1 wid pid + keySum l2 wid pid := by
  simp [keySum, List.filter_append]

theorem keySum_singleton (f : Resv) (wid : Int) (pid : Nat) :
    keySum [f] wid pid =
      if f.warehouseID = wid ∧ f.productID = pid then f.quantity else 0 := by
  rw [keySum_cons, keySum_nil, add_zero]

theorem single_le_keySum {resvs : List Resv} {f : Resv} (hf : f ∈ resvs)
    (hq : ∀ g ∈ resvs, 0 ≤ g.quantity) {wid : Int} {pid : Nat}
    (h1 : f.warehouseID = wid) (h2 : f.productID = pid) :
    f.quantity ≤ keySum resvs wid pid := by
  have hmem : f ∈ resvs.filter (fun g => g.warehouseID == wid && g.productID == pid) := by
    refine List.mem_filter.mpr ⟨hf, ?_⟩
    simp [h1, h2]
  refine List.single_le_sum ?_ f.quantity (List.mem_map.mpr ⟨f, hmem, rfl⟩)
  intro x hx
  rcases List.mem_map.mp hx with ⟨g, hg, rfl⟩
  exact hq g (List.mem_filter.mp hg).1

theorem keySum_filter_ne {resvs : List Resv} {f : Resv}
    (hnodup : (resvs.map (fun g => g.id)).Nodup) (hf : f ∈ resvs) (wid : Int) (pid : Nat) :
    keySum (resvs.filter (fun g => !(g.id == f.id))) wid pid =
      keySum resvs wid pid -
        (if f.warehouseID = wid ∧ f.productID = pid then f.quantity else 0) := by
  induction resvs with
  | nil => cases hf
  | cons g t ih =>
    rw [List.map_cons, List.nodup_cons] at hnodup
    rcases hnodup with ⟨hgid, htnodup⟩
    rcases List.mem_cons.mp hf with heq | hft
    · rw [heq]
      have hcond : (!(g.id == g.id)) = false := by simp
      rw [List.filter_cons, hcond]
      simp only [Bool.false_eq_true, if_false]
      have hkeep : t.filter (fun x => !(x.id == g.id)) = t := by
        refine List.filter_eq_self.mpr ?_
        intro x hx
        have : x.id ≠ g.id := by
          intro hxe
          exact hgid (List.mem_map.mpr ⟨x, hx, hxe⟩)
        simp [this]
      rw [hkeep, keySum_cons]
      ring
    · have hgne : g.id ≠ f.id := by
        intro hge
        exact hgid (List.mem_map.mpr ⟨f, hft, hge.symm⟩)
      have hcond : (!(g.id == f.id)) = true := by simp [hgne]
      rw [List.filter_cons, hcond]
      simp only [if_pos]
      rw [keySum_cons, ih htnodup hft, keySum_cons]
      ring

theorem allocStep_consistent {L : Ledger} (hC : Consistent L) {w : StockRow}
    (hw : w ∈ L.stocks) {pid : Nat} (hpid : w.productID = pid) {alloc : Int}
    (ha0 : 0 ≤ alloc) (hale : alloc ≤ w.stock - w.reserved)
    (oid : Nat) (exp : Int) :
    Consistent (allocStep oid pid exp L w alloc) := by
  obtain ⟨hInv, hQ, hSum, hLt, hRnd, hInd, hKnd⟩ := id hC
  refine ⟨?_, ?_, ?_, ?_, ?_, ?_, ?_⟩
  · intro r' hr'
    simp only [allocStep, updateReservedByID] at hr'
    rcases List.mem_map.mp hr' with ⟨r, hr, rfl⟩
    by_cases hid : r.id = w.id
    · have hrw : r = w := stockRow_inj_id hC hr hw hid
      rcases hInv r hr with ⟨h1, h2⟩
      have hr2 : r.reserved = w.reserved := by rw [hrw]
      have hr3 : r.stock = w.stock := by rw [hrw]
      rw [if_pos hid]
      refine ⟨?_, ?_⟩ <;> dsimp only <;> omega
    · rw [if_neg hid]
      exact hInv r hr
  · intro f hf
    simp only [allocStep] at hf
    rcases List.mem_append.mp hf with h | h
    · exact hQ f h
    · have hfe : f = ⟨L.nextResvID, oid, w.warehouseID, pid, alloc, exp⟩ :=
        List.mem_singleton.mp h
      rw [hfe]
      exact ha0
  · intro r' hr'
    simp only [allocStep, updateReservedByID] at hr' ⊢
    rcases List.mem_map.mp hr' with ⟨r, hr, rfl⟩
    by_cases hid : r.id = w.id
    · have hrw : r = w := stockRow_inj_id hC hr hw hid
      rw [if_pos hid]
      dsimp only
      rw [keySum_append, keySum_singleton]
      dsimp only
      have hcond : w.warehouseID = r.warehouseID ∧ pid = r.productID :=
        ⟨by rw [hrw], by rw [hrw, hpid]⟩
      rw [if_pos hcond]
      have := hSum r hr
      omega
    · rw [if_neg hid]
      rw [keySum_append, keySum_singleton]
      dsimp only
      have hcond : ¬(w.warehouseID = r.warehouseID ∧ pid = r.productID) := by
        rintro ⟨hwid, hpidr⟩
        have : r = w := stockRow_inj_key hC hr hw hwid.symm (by rw [← hpidr, hpid])
        exact hid (by rw [this])
      rw [if_neg hcond]
      have := hSum r hr
      omega
  · intro f hf
    simp only [allocStep] at hf ⊢
    rcases List.mem_append.mp hf with h | h
    · have := hLt f h
      omega
    · have hfe : f = ⟨L.nextResvID, oid, w.warehouseID, pid, alloc, exp⟩ :=
        List.mem_singleton.mp h
      rw [hfe]
      show L.nextResvID < L.nextResvID + 1
      omega
  · simp only [allocStep]
    rw [List.map_append, List.nodup_append]
    refine ⟨hRnd, List.nodup_singleton _, ?_⟩
    intro a ha hb
    rcases List.mem_map.mp ha with ⟨g, hg, rfl⟩
    have hlt := hLt g hg
    have : g.id = L.nextResvID := by simpa using hb
    omega
  · simp only [allocStep]
    rw [updateReservedByID_map_id]
    exact hInd
  · simp only [allocStep]
    rw [updateReservedByID_map_key]
    exact hKnd

theorem reserveLoop_consistent (oid pid : Nat) (exp : Int) :
    ∀ (rows : List StockRow) (needed : Int) (L : Ledger), Consistent L → 0 ≤ needed →
      (∀ w ∈ rows, w ∈ L.stocks) → (rows.map (fun r => r.id)).Nodup →
      (∀ w ∈ rows, w.productID = pid) →
      Consistent (reserveLoop oid pid exp rows needed L).1
  | [], needed, L, hC, _, _, _, _ => by
    simpa [reserveLoop] using hC
  | w :: rest, needed, L, hC, hn, hmem, hnd, hpid => by
    have hndtail : (rest.map (fun r => r.id)).Nodup := by
      rw [List.map_cons, List.nodup_cons] at hnd
      exact hnd.2
    have hwid_notin : w.id ∉ rest.map (fun r => r.id) := by
      rw [List.map_cons, List.nodup_cons] at hnd
      exact hnd.1
    unfold reserveLoop
    by_cases h0 : w.stock - w.reserved ≤ 0
    · simp only [h0, if_pos]
      exact reserveLoop_consistent oid pid exp rest needed L hC hn
        (fun x hx => hmem x (List.mem_cons_of_mem w hx)) hndtail
        (fun x hx => hpid x (List.mem_cons_of_mem w hx))
    · simp only [h0, if_neg, if_false]
      have ha0 : 0 ≤ (if w.stock - w.reserved > needed then needed else w.stock - w.reserved) := by
        split <;> omega
      have hale : (if w.stock - w.reserved > needed then needed else w.stock - w.reserved) ≤
          w.stock - w.reserved := by
        split <;> omega
      have hCstep := allocStep_consistent hC (hmem w (List.mem_cons_self w rest))
        (hpid w (List.mem_cons_self w rest)) ha0 hale oid exp
      by_cases hbrk : needed - (if w.stock - w.reserved > needed then needed
          else w.stock - w.reserved) ≤ 0
      · simp only [hbrk, if_pos]
        exact hCstep
      · simp only [hbrk, if_neg, if_false]
        refine reserveLoop_consistent oid pid exp rest _ _ hCstep (by omega) ?_ hndtail
          (fun x hx => hpid x (List.mem_cons_of_mem w hx))
        intro x hx
        have hxid : x.id ≠ w.id := by
          intro hxe
          exact hwid_notin (List.mem_map.mpr ⟨x, hx, hxe⟩)
        simp only [allocStep]
        exact mem_updateReservedByID_of_ne (hmem x (List.mem_cons_of_mem w hx)) hxid

theorem ReserveStockTx_consistent {L L' : Ledger} {oid pid : Nat} {q exp : Int}
    (hC : Consistent L) (hq : 0 ≤ q)
    (h : ReserveStockTx L oid pid q exp = .ok L') : Consistent L' := by
  have hloop := reserveLoop_consistent oid pid exp (activeRowsFor L pid) q L hC hq
    activeRowsFor_sub
    (((List.filter_sublist L.stocks).map (fun r => r.id)).nodup hC.2.2.2.2.2.1)
    (fun w hw => by
      have := (List.mem_filter.mp hw).2
      simp only [Bool.and_eq_true, beq_iff_eq] at this
      exact this.1)
  by_cases hc : (reserveLoop oid pid exp (activeRowsFor L pid) q L).2 > 0
  · simp only [ReserveStockTx, hc, if_pos] at h
    exact absurd h (by simp)
  · simp only [ReserveStockTx, hc, if_neg, if_false] at h
    cases h
    exact hloop

theorem commitStocks_map_id (stocks : List StockRow) (f : Resv) :
    ((stocks.map (fun r =>
      if r.warehouseID = f.warehouseID ∧ r.productID = f.productID then
        { r with stock := r.stock - f.quantity, reserved := r.reserved - f.quantity }
      else r)).map (fun r => r.id)) = stocks.map (fun r => r.id) := by
  rw [List.map_map]
  refine List.map_congr_left ?_
  intro r _
  simp only [Function.comp]
  split <;> rfl

theorem commitStocks_map_key (stocks : List StockRow) (f : Resv) :
    ((stocks.map (fun r =>
      if r.warehouseID = f.warehouseID ∧ r.productID = f.productID then
        { r with stock := r.stock - f.quantity, reserved := r.reserved - f.quantity }
      else r)).map (fun r => (r.warehouseID, r.productID))) =
      stocks.map (fun r => (r.warehouseID, r.productID)) := by
  rw [List.map_map]
  refine List.map_congr_left ?_
  intro r _
  simp only [Function.comp]
  split <;> rfl

theorem releaseStocks_map_id (stocks : List StockRow) (f : Resv) :
    ((stocks.map (fun r =>
      if r.warehouseID = f.warehouseID ∧ r.productID = f.productID then
        { r with reserved := r.reserved - f.quantity }
      else r)).map (fun r => r.id)) = stocks.map (fun r => r.id) := by
  rw [List.map_map]
  refine List.map_congr_left ?_
  intro r _
  simp only [Function.comp]
  split <;> rfl

theorem releaseStocks_map_key (stocks : List StockRow) (f : Resv) :
    ((stocks.map (fun r =>
      if r.warehouseID = f.warehouseID ∧ r.productID = f.productID then
        { r with reserved := r.reserved - f.quantity }
      else r)).map (fun r => (r.warehouseID, r.productID))) =
      stocks.map (fun r => (r.warehouseID, r.productID)) := by
  rw [List.map_map]
  refine List.map_congr_left ?_
  intro r _
  simp only [Function.comp]
  split <;> rfl

theorem applyCommitFrag_consistent {L : Ledger} (hC : Consistent L) {f : Resv}
    (hf : f ∈ L.resvs) : Consistent (applyCommitFrag L f) := by
  obtain ⟨hInv, hQ, hSum, hLt, hRnd, hInd, hKnd⟩ := id hC
  have hfq : 0 ≤ f.quantity := hQ f hf
  refine ⟨?_, ?_, ?_, ?_, ?_, ?_, ?_⟩
  · intro r' hr'
    simp only [applyCommitFrag] at hr'
    rcases List.mem_map.mp hr' with ⟨r, hr, rfl⟩
    by_cases hcond : r.warehouseID = f.warehouseID ∧ r.productID = f.productID
    · rw [if_pos hcond]
      rcases hInv r hr with ⟨h1, h2⟩
      have hle : f.quantity ≤ keySum L.resvs r.warehouseID r.productID :=
        single_le_keySum hf hQ hcond.1.symm hcond.2.symm
      have hks := hSum r hr
      refine ⟨?_, ?_⟩ <;> dsimp only <;> omega
    · rw [if_neg hcond]
      exact hInv r hr
  · intro g hg
    simp only [applyCommitFrag] at hg
    exact hQ g (List.mem_filter.mp hg).1
  · intro r' hr'
    simp only [applyCommitFrag] at hr' ⊢
    rcases List.mem_map.mp hr' with ⟨r, hr, rfl⟩
    have hks := hSum r hr
    by_cases hcond : r.warehouseID = f.warehouseID ∧ r.productID = f.productID
    · rw [if_pos hcond]
      dsimp only
      rw [keySum_filter_ne hRnd hf]
      rw [if_pos ⟨hcond.1.symm, hcond.2.symm⟩]
      omega
    · rw [if_neg hcond]
      rw [keySum_filter_ne hRnd hf]
      have hcond' : ¬(f.warehouseID = r.warehouseID ∧ f.productID = r.productID) := by
        rintro ⟨ha, hb⟩
        exact hcond ⟨ha.symm, hb.symm⟩
      rw [if_neg hcond']
      omega
  · intro g hg
    simp only [applyCommitFrag] at hg ⊢
    exact hLt g (List.mem_filter.mp hg).1
  · simp only [applyCommitFrag]
    exact ((List.filter_sublist L.resvs).map (fun g => g.id)).nodup hRnd
  · simp only [applyCommitFrag]
    rw [commitStocks_map_id]
    exact hInd
  · simp only [applyCommitFrag]
    rw [commitStocks_map_key]
    exact hKnd

theorem applyReleaseFrag_consistent {L : Ledger} (hC : Consistent L) {f : Resv}
    (hf : f ∈ L.resvs) : Consistent (applyReleaseFrag L f) := by
  obtain ⟨hInv, hQ, hSum, hLt, hRnd, hInd, hKnd⟩ := id hC
  have hfq : 0 ≤ f.quantity := hQ f hf
  refine ⟨?_, ?_, ?_, ?_, ?_, ?_, ?_⟩
  · intro r' hr'
    simp only [applyReleaseFrag] at hr'
    rcases List.mem_map.mp hr' with ⟨r, hr, rfl⟩
    by_cases hcond : r.warehouseID = f.warehouseID ∧ r.productID = f.productID
    · rw [if_pos hcond]
      rcases hInv r hr with ⟨h1, h2⟩
      have hle : f.quantity ≤ keySum L.resvs r.warehouseID r.productID :=
        single_le_keySum hf hQ hcond.1.symm hcond.2.symm
      have hks := hSum r hr
      refine ⟨?_, ?_⟩ <;> dsimp only <;> omega
    · rw [if_neg hcond]
      exact hInv r hr
  · intro g hg
    simp only [applyReleaseFrag] at hg
    exact hQ g (List.mem_filter.mp hg).1
  · intro r' hr'
    simp only [applyReleaseFrag] at hr' ⊢
    rcases List.mem_map.mp hr' with ⟨r, hr, rfl⟩
    have hks := hSum r hr
    by_cases hcond : r.warehouseID = f.warehouseID ∧ r.productID = f.productID
    · rw [if_pos hcond]
      dsimp only
      rw [keySum_filter_ne hRnd hf]
      rw [if_pos ⟨hcond.1.symm, hcond.2.symm⟩]
      omega
    · rw [if_neg hcond]
      rw [keySum_filter_ne hRnd hf]
      have hcond' : ¬(f.warehouseID = r.warehouseID ∧ f.productID = r.productID) := by
        rintro ⟨ha, hb⟩
        exact hcond ⟨ha.symm, hb.symm⟩
      rw [if_neg hcond']
      omega
  · intro g hg
    simp only [applyReleaseFrag] at hg ⊢
    exact hLt g (List.mem_filter.mp hg).1
  · simp only [applyReleaseFrag]
    exact ((List.filter_sublist L.resvs).map (fun g => g.id)).nodup hRnd
  · simp only [applyReleaseFrag]
    rw [releaseStocks_map_id]
    exact hInd
  · simp only [applyReleaseFrag]
    rw [releaseStocks_map_key]
    exact hKnd

theorem foldl_commitFrag_consistent :
    ∀ (pending : List Resv) (L : Ledger), Consistent L → pending.Sublist L.resvs →
      Consistent (pending.foldl applyCommitFrag L)
  | [], _, hC, _ => hC
  | f :: rest, L, hC, hsub => by
    have hf : f ∈ L.resvs := hsub.subset (List.mem_cons_self f rest)
    have hC1 := applyCommitFrag_consistent hC hf
    have hids : ((f :: rest).map (fun g => g.id)).Nodup :=
      (hsub.map (fun g => g.id)).nodup hC.2.2.2.2.1
    rw [List.map_cons, List.nodup_cons] at hids
    have hrest : rest.Sublist L.resvs := List.sublist_of_cons_sublist hsub
    have hfix : rest.filter (fun g => !(g.id == f.id)) = rest := by
      refine List.filter_eq_self.mpr ?_
      intro x hx
      have hxne : x.id ≠ f.id := fun he => hids.1 (List.mem_map.mpr ⟨x, hx, he⟩)
      simp [hxne]
    have hrest_sub : rest.Sublist (applyCommitFrag L f).resvs := by
      have h2 := hrest.filter (fun g => !(g.id == f.id))
      rw [hfix] at h2
      exact h2
    exact foldl_commitFrag_consistent rest (applyCommitFrag L f) hC1 hrest_sub

theorem foldl_releaseFrag_consistent :
    ∀ (pending : List Resv) (L : Ledger), Consistent L → pending.Sublist L.resvs →
      Consistent (pending.foldl applyReleaseFrag L)
  | [], _, hC, _ => hC
  | f :: rest, L, hC, hsub => by
    have hf : f ∈ L.resvs := hsub.subset (List.mem_cons_self f rest)
    have hC1 := applyReleaseFrag_consistent hC hf
    have hids : ((f :: rest).map (fun g => g.id)).Nodup :=
      (hsub.map (fun g => g.id)).nodup hC.2.2.2.2.1
    rw [List.map_cons, List.nodup_cons] at hids
    have hrest : rest.Sublist L.resvs := List.sublist_of_cons_sublist hsub
    have hfix : rest.filter (fun g => !(g.id == f.id)) = rest := by
      refine List.filter_eq_self.mpr ?_
      intro x hx
      have hxne : x.id ≠ f.id := fun he => hids.1 (List.mem_map.mpr ⟨x, hx, he⟩)
      simp [hxne]
    have hrest_sub : rest.Sublist (applyReleaseFrag L f).resvs := by
      have h2 := hrest.filter (fun g => !(g.id == f.id))
      rw [hfix] at h2
      exact h2
    exact foldl_releaseFrag_consistent rest (applyReleaseFrag L f) hC1 hrest_sub

theorem CommitReservationsTx_consistent {L : Ledger} (hC : Consistent L) (oid : Nat) :
    Consistent (CommitReservationsTx L oid) :=
  foldl_commitFrag_consistent (GetReservationsByOrderTx L oid) L hC
    (List.filter_sublist L.resvs)

theorem ReleaseReservationsTx_consistent {L : Ledger} (hC : Consistent L) (oid : Nat) :
    Consistent (ReleaseReservationsTx L oid) :=
  foldl_releaseFrag_consistent (GetReservationsByOrderTx L oid) L hC
    (List.filter_sublist L.resvs)

theorem applyOp_consistent {L : Ledger} (hC : Consistent L) (op : Op)
    (hop : OpQtyNonneg op) : Consistent (applyOp L op) := by
  cases op with
  | allocate oid pid q exp =>
    simp only [applyOp]
    cases h : ReserveStockTx L oid pid q exp with
    | ok L' => exact ReserveStockTx_consistent hC hop h
    | error e => exact hC
  | commit oid => exact CommitReservationsTx_consistent hC oid
  | release oid => exact ReleaseReservationsTx_consistent hC oid

theorem runOps_consistent :
    ∀ (ops : List Op) (L : Ledger), Consistent L → (∀ op ∈ ops, OpQtyNonneg op) →
      Consistent (runOps L ops)
  | [], _, hC, _ => hC
  | op :: rest, L, hC, hops => by
    have h1 := applyOp_consistent hC op (hops op (List.mem_cons_self op rest))
    exact runOps_consistent rest (applyOp L op) h1
      (fun x hx => hops x (List.mem_cons_of_mem op hx))

/-! ### Decomposition of the allocation loop -/

theorem applyAllocsStocks_nil (st : List StockRow) : applyAllocsStocks st [] = st := rfl

theorem applyAllocsStocks_cons (st : List StockRow) (p : StockRow × Int)
    (l : List (StockRow × Int)) :
    applyAllocsStocks st (p :: l) = applyAllocsStocks (updateReservedByID st p.1.id p.2) l := rfl

theorem reserveLoop_eq (oid pid : Nat) (exp : Int) :
    ∀ (rows : List StockRow) (needed : Int) (L : Ledger),
      reserveLoop oid pid exp rows needed L =
        ({ warehouses := L.warehouses
           stocks := applyAllocsStocks L.stocks (greedyAllocs rows needed)
           resvs := L.resvs ++ mkFrags L.nextResvID oid pid exp (greedyAllocs rows needed)
           nextResvID := L.nextResvID + (greedyAllocs rows needed).length },
         needed - allocTotal (greedyAllocs rows needed))
  | [], needed, L => by
    simp [reserveLoop, greedyAllocs, applyAllocsStocks, mkFrags, allocTotal]
  | w :: rest, needed, L => by
    unfold reserveLoop greedyAllocs
    by_cases h0 : w.stock - w.reserved ≤ 0
    · simp only [h0, if_pos]
      exact reserveLoop_eq oid pid exp rest needed L
    · simp only [h0, if_neg, if_false]
      by_cases hbrk : needed -
          (if w.stock - w.reserved > needed then needed else w.stock - w.reserved) ≤ 0
      · simp only [hbrk, if_pos]
        rw [Prod.mk.injEq]
        constructor
        · simp only [allocStep, applyAllocsStocks_cons, applyAllocsStocks_nil, mkFrags]
          simp [Ledger.mk.injEq]
        · simp [allocTotal]
      · simp only [hbrk, if_neg, if_false]
        rw [reserveLoop_eq oid pid exp rest _ (allocStep oid pid exp L w _)]
        rw [Prod.mk.injEq]
        constructor
        · simp only [allocStep, applyAllocsStocks_cons, mkFrags]
          simp only [Ledger.mk.injEq]
          refine ⟨?_, ?_, ?_, ?_⟩
          · trivial
          · trivial
          · rw [List.append_assoc]
            rfl
          · rw [List.length_cons]
            push_cast
            ring
        · simp only [allocTotal, List.map_cons, List.sum_cons]
          ring

theorem allocDelta_nil (rid : Int) : allocDelta [] rid = 0 := rfl

theorem allocDelta_cons (p : StockRow × Int) (l : List (StockRow × Int)) (rid : Int) :
    allocDelta (p :: l) rid = (if p.1.id = rid then p.2 else 0) + allocDelta l rid := by
  by_cases h : p.1.id = rid
  · simp [allocDelta, List.filter_cons, h]
  · simp [allocDelta, List.filter_cons, h]

theorem wAllocSum_cons (p : StockRow × Int) (l : List (StockRow × Int)) (wid : Int) :
    wAllocSum (p :: l) wid =
      (if p.1.warehouseID = wid then p.2 else 0) + wAllocSum l wid := by
  by_cases h : p.1.warehouseID = wid
  · simp [wAllocSum, List.filter_cons, h]
  · simp [wAllocSum, List.filter_cons, h]

theorem applyAllocsStocks_eq_map :
    ∀ (allocs : List (StockRow × Int)) (stocks : List StockRow),
      applyAllocsStocks stocks allocs =
        stocks.map (fun r => { r with reserved := r.reserved + allocDelta allocs r.id })
  | [], stocks => by
    have h : ∀ r ∈ stocks,
        ({ r with reserved := r.reserved + allocDelta [] r.id } : StockRow) = r := by
      intro r _
      simp [allocDelta_nil]
    rw [applyAllocsStocks_nil, List.map_congr_left h]
    exact (List.map_id' stocks).symm ▸ rfl
  | p :: rest, stocks => by
    rw [applyAllocsStocks_cons, applyAllocsStocks_eq_map rest]
    rw [updateReservedByID, List.map_map]
    refine List.map_congr_left ?_
    intro r _
    simp only [Function.comp]
    by_cases h : r.id = p.1.id
    · rw [if_pos h]
      dsimp only
      rw [allocDelta_cons, if_pos h.symm]
      simp only [StockRow.mk.injEq, true_and]
      ring
    · rw [if_neg h]
      rw [allocDelta_cons, if_neg (fun he => h he.symm)]
      simp only [StockRow.mk.injEq, true_and]
      ring

theorem foldl_releaseFrag_stocks :
    ∀ (frags : List Resv) (L : Ledger),
      (frags.foldl applyReleaseFrag L).stocks =
        L.stocks.map (fun r =>
          { r with reserved := r.reserved - keySum frags r.warehouseID r.productID })
  | [], L => by
    have h : ∀ r ∈ L.stocks,
        ({ r with reserved := r.reserved - keySum [] r.warehouseID r.productID } :
          StockRow) = r := by
      intro r _
      simp [keySum_nil]
    rw [List.foldl_nil, List.map_congr_left h]
    exact ((List.map_id' L.stocks).symm ▸ rfl : L.stocks = L.stocks.map (fun r => r)) ▸ rfl
  | f :: rest, L => by
    rw [List.foldl_cons, foldl_releaseFrag_stocks rest]
    simp only [applyReleaseFrag]
    rw [List.map_map]
    refine List.map_congr_left ?_
    intro r _
    simp only [Function.comp]
    by_cases h : r.warehouseID = f.warehouseID ∧ r.productID = f.productID
    · rw [if_pos h]
      dsimp only
      rw [keySum_cons, if_pos ⟨h.1.symm, h.2.symm⟩]
      simp only [StockRow.mk.injEq, true_and]
      ring
    · rw [if_neg h]
      rw [keySum_cons, if_neg (fun hc => h ⟨hc.1.symm, hc.2.symm⟩)]
      simp only [StockRow.mk.injEq, true_and]
      ring

theorem foldl_commitFrag_stocks :
    ∀ (frags : List Resv) (L : Ledger),
      (frags.foldl applyCommitFrag L).stocks =
        L.stocks.map (fun r =>
          { r with stock := r.stock - keySum frags r.warehouseID r.productID,
                   reserved := r.reserved - keySum frags r.warehouseID r.productID })
  | [], L => by
    have h : ∀ r ∈ L.stocks,
        ({ r with stock := r.stock - keySum [] r.warehouseID r.productID,
                  reserved := r.reserved - keySum [] r.warehouseID r.productID } :
          StockRow) = r := by
      intro r _
      simp [keySum_nil]
    rw [List.foldl_nil, List.map_congr_left h]
    exact ((List.map_id' L.stocks).symm ▸ rfl : L.stocks = L.stocks.map (fun r => r)) ▸ rfl
  | f :: rest, L => by
    rw [List.foldl_cons, foldl_commitFrag_stocks rest]
    simp only [applyCommitFrag]
    rw [List.map_map]
    refine List.map_congr_left ?_
    intro r _
    simp only [Function.comp]
    by_cases h : r.warehouseID = f.warehouseID ∧ r.productID = f.productID
    · rw [if_pos h]
      dsimp only
      rw [keySum_cons, if_pos ⟨h.1.symm, h.2.symm⟩]
      simp only [StockRow.mk.injEq, true_and]
      constructor <;> ring
    · rw [if_neg h]
      rw [keySum_cons, if_neg (fun hc => h ⟨hc.1.symm, hc.2.symm⟩)]
      simp only [StockRow.mk.injEq, true_and]
      constructor <;> ring

theorem foldl_releaseFrag_resvs :
    ∀ (frags : List Resv) (L : Ledger),
      (frags.foldl applyReleaseFrag L).resvs =
        L.resvs.filter (fun g => frags.all (fun f => !(g.id == f.id)))
  | [], L => by
    simp
  | f :: rest, L => by
    rw [List.foldl_cons, foldl_releaseFrag_resvs rest]
    simp only [applyReleaseFrag]
    rw [List.filter_filter]
    refine List.filter_congr ?_
    intro g _
    rw [List.all_cons, Bool.and_comm]

theorem foldl_commitFrag_resvs :
    ∀ (frags : List Resv) (L : Ledger),
      (frags.foldl applyCommitFrag L).resvs =
        L.resvs.filter (fun g => frags.all (fun f => !(g.id == f.id)))
  | [], L => by
    simp
  | f :: rest, L => by
    rw [List.foldl_cons, foldl_commitFrag_resvs rest]
    simp only [applyCommitFrag]
    rw [List.filter_filter]
    refine List.filter_congr ?_
    intro g _
    rw [List.all_cons, Bool.and_comm]

theorem mkFrags_mem (oid pid : Nat) (exp : Int) :
    ∀ (allocs : List (StockRow × Int)) (nid : Int) (f : Resv),
      f ∈ mkFrags nid oid pid exp allocs →
      f.orderID = oid ∧ f.productID = pid ∧ nid ≤ f.id
  | [], _, f, h => absurd h (List.not_mem_nil f)
  | p :: rest, nid, f, h => by
    rw [mkFrags] at h
    rcases List.mem_cons.mp h with heq | ht
    · rw [heq]
      exact ⟨rfl, rfl, le_refl _⟩
    · have ih := mkFrags_mem oid pid exp rest (nid + 1) f ht
      refine ⟨ih.1, ih.2.1, ?_⟩
      have := ih.2.2
      omega

theorem keySum_mkFrags (oid pid : Nat) (exp : Int) :
    ∀ (allocs : List (StockRow × Int)) (nid : Int) (wid : Int) (pid' : Nat),
      keySum (mkFrags nid oid pid exp allocs) wid pid' =
        if pid = pid' then wAllocSum allocs wid else 0
  | [], nid, wid, pid' => by
    simp [mkFrags, keySum_nil, wAllocSum]
  | p :: rest, nid, wid, pid' => by
    rw [mkFrags, keySum_cons, keySum_mkFrags oid pid exp rest (nid + 1) wid pid']
    dsimp only
    by_cases hp : pid = pid'
    · rw [if_pos hp, if_pos hp, wAllocSum_cons]
      by_cases hw : p.1.warehouseID = wid
      · rw [if_pos ⟨hw, hp⟩, if_pos hw]
      · rw [if_neg (fun hc => hw hc.1), if_neg hw]
    · rw [if_neg hp, if_neg hp]
      rw [if_neg (fun hc => hp hc.2)]
      ring

theorem greedyAllocs_mem :
    ∀ (rows : List StockRow) (needed : Int) (p : StockRow × Int),
      p ∈ greedyAllocs rows needed → p.1 ∈ rows
  | [], _, p, h => absurd h (List.not_mem_nil p)
  | w :: rest, needed, p, h => by
    unfold greedyAllocs at h
    by_cases h0 : w.stock - w.reserved ≤ 0
    · simp only [h0, if_pos] at h
      exact List.mem_cons_of_mem w (greedyAllocs_mem rest needed p h)
    · simp only [h0, if_neg, if_false] at h
      by_cases hbrk : needed -
          (if w.stock - w.reserved > needed then needed else w.stock - w.reserved) ≤ 0
      · simp only [hbrk, if_pos] at h
        have heq := List.mem_singleton.mp h
        rw [heq]
        exact List.mem_cons_self w rest
      · simp only [hbrk, if_neg, if_false] at h
        rcases List.mem_cons.mp h with heq | ht
        · rw [heq]
          exact List.mem_cons_self w rest
        · exact List.mem_cons_of_mem w (greedyAllocs_mem rest _ p ht)

theorem activeRowsFor_pid {L : Ledger} {pid : Nat} :
    ∀ w ∈ activeRowsFor L pid, w.productID = pid := by
  intro w hw
  have := (List.mem_filter.mp hw).2
  simp only [Bool.and_eq_true, beq_iff_eq] at this
  exact this.1

theorem keySum_mkFrags_eq_allocDelta {L : Ledger} (hC : Consistent L) {pid : Nat}
    {q : Int} {r : StockRow} (hr : r ∈ L.stocks) (oid : Nat) (exp : Int) (nid : Int) :
    keySum (mkFrags nid oid pid exp (greedyAllocs (activeRowsFor L pid) q))
        r.warehouseID r.productID =
      allocDelta (greedyAllocs (activeRowsFor L pid) q) r.id := by
  have hmemrows : ∀ p ∈ greedyAllocs (activeRowsFor L pid) q,
      p.1 ∈ L.stocks ∧ p.1.productID = pid := by
    intro p hp
    have h1 := greedyAllocs_mem _ _ p hp
    exact ⟨activeRowsFor_sub p.1 h1, activeRowsFor_pid p.1 h1⟩
  rw [keySum_mkFrags]
  by_cases hp : pid = r.productID
  · rw [if_pos hp]
    rw [wAllocSum, allocDelta]
    have hfeq : (greedyAllocs (activeRowsFor L pid) q).filter
          (fun p => p.1.warehouseID == r.warehouseID) =
        (greedyAllocs (activeRowsFor L pid) q).filter (fun p => p.1.id == r.id) := by
      refine List.filter_congr ?_
      intro p hp2
      rcases hmemrows p hp2 with ⟨hpmem, hppid⟩
      by_cases hw : p.1.warehouseID = r.warehouseID
      · have hpr : p.1 = r := stockRow_inj_key hC hpmem hr hw (by rw [hppid, hp])
        have hid : p.1.id = r.id := by rw [hpr]
        simp [hw, hid]
      · have hid : p.1.id ≠ r.id := fun he => hw (by rw [stockRow_inj_id hC hpmem hr he])
        simp [hw, hid]
    rw [hfeq]
  · rw [if_neg hp]
    rw [allocDelta]
    have hnil : (greedyAllocs (activeRowsFor L pid) q).filter (fun p => p.1.id == r.id) = [] := by
      rw [List.filter_eq_nil_iff]
      intro p hp2
      rcases hmemrows p hp2 with ⟨hpmem, hppid⟩
      intro hbeq
      have he : p.1.id = r.id := by simpa using hbeq
      have hpr : p.1 = r := stockRow_inj_id hC hpmem hr he
      exact hp (by rw [← hppid, hpr])
    rw [hnil]
    rfl

theorem sum_ite_unique (a : Int) :
    ∀ (stocks : List StockRow) (w : StockRow), ((stocks.map (fun r => r.id)).Nodup) →
      w ∈ stocks →
      (stocks.map (fun r => if w.id = r.id then a else 0)).sum = a
  | [], w, _, hw => absurd hw (List.not_mem_nil w)
  | r0 :: rest, w, hnd, hw => by
    rw [List.map_cons, List.nodup_cons] at hnd
    rw [List.map_cons, List.sum_cons]
    rcases List.mem_cons.mp hw with heq | ht
    · rw [if_pos (by rw [heq])]
      have hzero : (rest.map (fun r => if w.id = r.id then a else 0)).sum = 0 := by
        refine List.sum_eq_zero ?_
        intro x hx
        rcases List.mem_map.mp hx with ⟨r, hr, rfl⟩
        rw [if_neg]
        intro he
        refine hnd.1 (List.mem_map.mpr ⟨r, hr, ?_⟩)
        rw [← he, heq]
      rw [hzero]
      ring
    · have hne : w.id ≠ r0.id := by
        intro he
        exact hnd.1 (List.mem_map.mpr ⟨w, ht, he⟩)
      rw [if_neg hne]
      rw [sum_ite_unique a rest w hnd.2 ht]
      ring

theorem sum_map_add_rows (l : List StockRow) (f g : StockRow → Int) :
    (l.map (fun x => f x + g x)).sum = (l.map f).sum + (l.map g).sum := by
  induction l with
  | nil => simp
  | cons a t ih =>
    simp only [List.map_cons, List.sum_cons, ih]
    ring

theorem sum_map_sub_rows (l : List StockRow) (f g : StockRow → Int) :
    (l.map (fun x => f x - g x)).sum = (l.map f).sum - (l.map g).sum := by
  induction l with
  | nil => simp
  | cons a t ih =>
    simp only [List.map_cons, List.sum_cons, ih]
    ring

theorem sum_allocDelta :
    ∀ (allocs : List (StockRow × Int)) (stocks : List StockRow),
      ((stocks.map (fun r => r.id)).Nodup) → (∀ p ∈ allocs, p.1 ∈ stocks) →
      (stocks.map (fun r => allocDelta allocs r.id)).sum = allocTotal allocs
  | [], stocks, _, _ => by
    have h : ∀ x ∈ stocks.map (fun r => allocDelta [] r.id), x = 0 := by
      intro x hx
      rcases List.mem_map.mp hx with ⟨r, _, rfl⟩
      exact allocDelta_nil r.id
    rw [List.sum_eq_zero h]
    rfl
  | p :: rest, stocks, hnd, hmem => by
    have hsplit : stocks.map (fun r => allocDelta (p :: rest) r.id) =
        stocks.map (fun r => (if p.1.id = r.id then p.2 else 0) + allocDelta rest r.id) := by
      refine List.map_congr_left ?_
      intro r _
      rw [allocDelta_cons]
    rw [hsplit, sum_map_add_rows]
    rw [sum_ite_unique p.2 stocks p.1 hnd (hmem p (List.mem_cons_self p rest))]
    rw [sum_allocDelta rest stocks hnd (fun x hx => hmem x (List.mem_cons_of_mem p hx))]
    simp [allocTotal]

theorem ReserveStockTx_ok_eq {L L' : Ledger} {oid pid : Nat} {q exp : Int}
    (hok : ReserveStockTx L oid pid q exp = .ok L') :
    L' = { warehouses := L.warehouses
           stocks := applyAllocsStocks L.stocks (greedyAllocs (activeRowsFor L pid) q)
           resvs := L.resvs ++
             mkFrags L.nextResvID oid pid exp (greedyAllocs (activeRowsFor L pid) q)
           nextResvID := L.nextResvID + (greedyAllocs (activeRowsFor L pid) q).length } := by
  by_cases hc : (reserveLoop oid pid exp (activeRowsFor L pid) q L).2 > 0
  · simp only [ReserveStockTx, hc, if_pos] at hok
    exact absurd hok (by simp)
  · simp only [ReserveStockTx, hc, if_neg, if_false] at hok
    have h1 : (reserveLoop oid pid exp (activeRowsFor L pid) q L).1 = L' := by
      cases hok
      rfl
    rw [← h1, reserveLoop_eq]

theorem ReserveStockTx_ok_allocTotal {L L' : Ledger} {oid pid : Nat} {q exp : Int}
    (hinv : LedgerInv L) (hq : 0 ≤ q) (hok : ReserveStockTx L oid pid q exp = .ok L') :
    allocTotal (greedyAllocs (activeRowsFor L pid) q) = q := by
  have hsnd := reserveLoop_snd oid pid exp (activeRowsFor L pid) q L hq
    (activeRowsFor_avail_nonneg hinv)
  have h0 : 0 ≤ (reserveLoop oid pid exp (activeRowsFor L pid) q L).2 := by
    rw [hsnd]
    exact le_max_left 0 _
  by_cases hc : (reserveLoop oid pid exp (activeRowsFor L pid) q L).2 > 0
  · simp only [ReserveStockTx, hc, if_pos] at hok
    exact absurd hok (by simp)
  · have h2 : (reserveLoop oid pid exp (activeRowsFor L pid) q L).2 =
        q - allocTotal (greedyAllocs (activeRowsFor L pid) q) := by
      rw [reserveLoop_eq]
    omega

/-! ### The claims: C3 and C4 -/

/-- C3: allocate-then-release round trip.  From a consistent ledger and an
order with no pre-existing fragments, a successful `ReserveStockTx` followed
by `ReleaseReservationsTx` restores every row's `reserved` to its
pre-allocation value, leaves every `stock` unchanged (the whole
warehouse-stock table is restored exactly), and deletes all of the order's
fragments (the journal is restored exactly). -/
theorem allocate_release_roundtrip (L L' : Ledger) (oid pid : Nat) (q exp : Int)
    (hC : Consistent L) (hempty : GetReservationsByOrderTx L oid = [])
    (hok : ReserveStockTx L oid pid q exp = .ok L') :
    (ReleaseReservationsTx L' oid).stocks = L.stocks ∧
    (ReleaseReservationsTx L' oid).resvs = L.resvs := by
  have hL' := ReserveStockTx_ok_eq hok
  set allocs := greedyAllocs (activeRowsFor L pid) q with hallocs
  set newFrags := mkFrags L.nextResvID oid pid exp allocs with hnf
  have h1 : L.resvs.filter (fun f => f.orderID == oid) = [] := hempty
  have horder : GetReservationsByOrderTx L' oid = newFrags := by
    rw [hL']
    show (L.resvs ++ newFrags).filter (fun f => f.orderID == oid) = newFrags
    rw [List.filter_append, h1]
    have h2 : newFrags.filter (fun f => f.orderID == oid) = newFrags := by
      refine List.filter_eq_self.mpr ?_
      intro f hf
      have := (mkFrags_mem oid pid exp allocs L.nextResvID f hf).1
      simp [this]
    rw [h2]
    rfl
  constructor
  · show ((GetReservationsByOrderTx L' oid).foldl applyReleaseFrag L').stocks = L.stocks
    rw [horder, foldl_releaseFrag_stocks, hL']
    show (applyAllocsStocks L.stocks allocs).map (fun r => { r with reserved := r.reserved - keySum newFrags r.warehouseID r.productID }) = L.stocks
    rw [applyAllocsStocks_eq_map, List.map_map]
    refine Eq.trans (List.map_congr_left ?_) (List.map_id' L.stocks)
    intro r hr
    have hks : keySum newFrags r.warehouseID r.productID = allocDelta allocs r.id :=
      keySum_mkFrags_eq_allocDelta hC hr oid exp L.nextResvID
    simp only [Function.comp]
    rw [hks]
    simp
  · show ((GetReservationsByOrderTx L' oid).foldl applyReleaseFrag L').resvs = L.resvs
    rw [horder, foldl_releaseFrag_resvs, hL']
    show (L.resvs ++ newFrags).filter
        (fun g => newFrags.all (fun f => !(g.id == f.id))) = L.resvs
    rw [List.filter_append]
    have hold : L.resvs.filter (fun g => newFrags.all (fun f => !(g.id == f.id))) =
        L.resvs := by
      refine List.filter_eq_self.mpr ?_
      intro g hg
      rw [List.all_eq_true]
      intro f hf
      have hgid := hC.2.2.2.1 g hg
      have hfid := (mkFrags_mem oid pid exp allocs L.nextResvID f hf).2.2
      have hne : g.id ≠ f.id := by omega
      simp [hne]
    have hnew : newFrags.filter (fun g => newFrags.all (fun f => !(g.id == f.id))) = [] := by
      rw [List.filter_eq_nil_iff]
      intro g hg hall
      rw [List.all_eq_true] at hall
      have := hall g hg
      simp at this
    rw [hold, hnew]
    exact List.append_nil L.resvs

/-- Witness for C3 at the two-warehouse scenario. -/
theorem allocate_release_roundtrip_witness :
    (ReleaseReservationsTx twoWarehouseAllocated 1).stocks = twoWarehouseLedger.stocks ∧
    (ReleaseReservationsTx twoWarehouseAllocated 1).resvs = twoWarehouseLedger.resvs :=
  allocate_release_roundtrip twoWarehouseLedger twoWarehouseAllocated 1 7 5 0
    (by decide) (by decide) (by decide)

/-- C4: allocate-then-commit round trip.  From a consistent ledger and an
order with no pre-existing fragments, a successful `ReserveStockTx` of
quantity `q ≥ 0` followed by `CommitReservationsTx` decreases total stock by
exactly `q`, returns every row's `reserved` to its pre-allocation value, and
deletes all of the order's fragments (the journal is restored exactly). -/
theorem allocate_commit_roundtrip (L L' : Ledger) (oid pid : Nat) (q exp : Int)
    (hC : Consistent L) (hq : 0 ≤ q) (hempty : GetReservationsByOrderTx L oid = [])
    (hok : ReserveStockTx L oid pid q exp = .ok L') :
    stocksTotal (CommitReservationsTx L' oid) = stocksTotal L - q ∧
    (CommitReservationsTx L' oid).stocks.map (fun r => (r.id, r.reserved)) =
      L.stocks.map (fun r => (r.id, r.reserved)) ∧
    (CommitReservationsTx L' oid).resvs = L.resvs := by
  have hL' := ReserveStockTx_ok_eq hok
  have htotal := ReserveStockTx_ok_allocTotal hC.1 hq hok
  set allocs := greedyAllocs (activeRowsFor L pid) q with hallocs
  set newFrags := mkFrags L.nextResvID oid pid exp allocs with hnf
  have hmemrows : ∀ p ∈ allocs, p.1 ∈ L.stocks := by
    intro p hp
    exact activeRowsFor_sub p.1 (greedyAllocs_mem _ _ p hp)
  have h1 : L.resvs.filter (fun f => f.orderID == oid) = [] := hempty
  have horder : GetReservationsByOrderTx L' oid = newFrags := by
    rw [hL']
    show (L.resvs ++ newFrags).filter (fun f => f.orderID == oid) = newFrags
    rw [List.filter_append, h1]
    have h2 : newFrags.filter (fun f => f.orderID == oid) = newFrags := by
      refine List.filter_eq_self.mpr ?_
      intro f hf
      have := (mkFrags_mem oid pid exp allocs L.nextResvID f hf).1
      simp [this]
    rw [h2]
    rfl
  have hstocks : (CommitReservationsTx L' oid).stocks =
      L.stocks.map (fun r =>
        { r with stock := r.stock - allocDelta allocs r.id }) := by
    show ((GetReservationsByOrderTx L' oid).foldl applyCommitFrag L').stocks =
      L.stocks.map (fun r => { r with stock := r.stock - allocDelta allocs r.id })
    rw [horder, foldl_commitFrag_stocks, hL']
    show (applyAllocsStocks L.stocks allocs).map (fun r => { r with stock := r.stock - keySum newFrags r.warehouseID r.productID, reserved := r.reserved - keySum newFrags r.warehouseID r.productID }) = L.stocks.map (fun r => { r with stock := r.stock - allocDelta allocs r.id })
    rw [applyAllocsStocks_eq_map, List.map_map]
    refine List.map_congr_left ?_
    intro r hr
    have hks : keySum newFrags r.warehouseID r.productID = allocDelta allocs r.id :=
      keySum_mkFrags_eq_allocDelta hC hr oid exp L.nextResvID
    simp only [Function.comp]
    rw [hks]
    simp only [StockRow.mk.injEq, true_and]
    ring
  refine ⟨?_, ?_, ?_⟩
  · rw [stocksTotal, hstocks, List.map_map]
    have hcomp : (L.stocks.map ((fun r => r.stock) ∘
        (fun r => { r with stock := r.stock - allocDelta allocs r.id }))).sum =
        (L.stocks.map (fun r => r.stock - allocDelta allocs r.id)).sum := by
      refine congrArg _ ?_
      refine List.map_congr_left ?_
      intro r _
      rfl
    rw [hcomp, sum_map_sub_rows]
    rw [sum_allocDelta allocs L.stocks hC.2.2.2.2.2.1 hmemrows]
    rw [htotal]
    rfl
  · rw [hstocks, List.map_map]
    refine List.map_congr_left ?_
    intro r _
    rfl
  · show ((GetReservationsByOrderTx L' oid).foldl applyCommitFrag L').resvs = L.resvs
    rw [horder, foldl_commitFrag_resvs, hL']
    show (L.resvs ++ newFrags).filter
        (fun g => newFrags.all (fun f => !(g.id == f.id))) = L.resvs
    rw [List.filter_append]
    have hold : L.resvs.filter (fun g => newFrags.all (fun f => !(g.id == f.id))) =
        L.resvs := by
      refine List.filter_eq_self.mpr ?_
      intro g hg
      rw [List.all_eq_true]
      intro f hf
      have hgid := hC.2.2.2.1 g hg
      have hfid := (mkFrags_mem oid pid exp allocs L.nextResvID f hf).2.2
      have hne : g.id ≠ f.id := by omega
      simp [hne]
    have hnew : newFrags.filter (fun g => newFrags.all (fun f => !(g.id == f.id))) = [] := by
      rw [List.filter_eq_nil_iff]
      intro g hg hall
      rw [List.all_eq_true] at hall
      have := hall g hg
      simp at this
    rw [hold, hnew]
    exact List.append_nil L.resvs

/-- Witness for C4 at the two-warehouse scenario. -/
theorem allocate_commit_roundtrip_witness :
    stocksTotal (CommitReservationsTx twoWarehouseAllocated 1) =
      stocksTotal twoWarehouseLedger - 5 ∧
    (CommitReservationsTx twoWarehouseAllocated 1).stocks.map (fun r => (r.id, r.reserved)) =
      twoWarehouseLedger.stocks.map (fun r => (r.id, r.reserved)) ∧
    (CommitReservationsTx twoWarehouseAllocated 1).resvs = twoWarehouseLedger.resvs :=
  allocate_commit_roundtrip twoWarehouseLedger twoWarehouseAllocated 1 7 5 0
    (by decide) (by decide) (by decide) (by decide)

/-! ### The claims: C1 -/

/-- C1 is false exactly as stated: from a consistent state, a single
`ReserveStockTx` with a negative requested quantity commits successfully and
drives a row's `reserved` below zero. -/
theorem ledger_invariant_counterexample :
    Consistent negQtyLedger ∧
      ¬ (∀ r ∈ (runOps negQtyLedger [Op.allocate 1 1 (-1) 0]).stocks,
          0 ≤ r.reserved ∧ r.reserved ≤ r.stock) := by
  decide

/-- C1 (amended): for every committed state reachable by Allocate
(`ReserveStockTx`), CommitReservations and ReleaseReservations from a
consistent state, where every allocation request carries a nonnegative
quantity, every warehouse-stock row satisfies `0 ≤ reserved ≤ stock`. -/
theorem ledger_invariant_preserved (L : Ledger) (ops : List Op)
    (hC : Consistent L) (hops : ∀ op ∈ ops, OpQtyNonneg op) :
    ∀ r ∈ (runOps L ops).stocks, 0 ≤ r.reserved ∧ r.reserved ≤ r.stock := by
  intro r hr
  exact (runOps_consistent ops L hC hops).1 r hr

/-- Witness for the amended C1: allocate 5 units of product 7, commit order 1,
then run a release on the (now empty) journal; the second row ends with
stock 2, reserved 0 and satisfies the invariant. -/
theorem ledger_invariant_preserved_witness :
    (0:Int) ≤ (⟨2, 20, 7, 2, 0⟩ : StockRow).reserved ∧
      (⟨2, 20, 7, 2, 0⟩ : StockRow).reserved ≤ (⟨2, 20, 7, 2, 0⟩ : StockRow).stock := by
  have h := ledger_invariant_preserved twoWarehouseLedger
    [Op.allocate 1 7 5 0, Op.commit 1, Op.release 1] (by decide) (by decide)
  exact h ⟨2, 20, 7, 2, 0⟩ (by decide)

/-! ### The claims: C2 -/

/-- C2: for every product, row list satisfying the row invariant and
requested quantity `q > 0`, the greedy walk of `ReserveStockTx` signals
`InsufficientStock` exactly when the total available stock is below `q`; on
success the reservation fragments written for the order sum to exactly `q`;
and on two active warehouses with available 3 and 4 a request of 5 takes 3
from the first-walked warehouse and 2 from the second, leaving 0 and 2
available. -/
theorem reserveStockTx_greedy (L : Ledger) (oid pid : Nat) (q exp : Int)
    (hq : 0 < q) (hinv : LedgerInv L) :
    (ReserveStockTx L oid pid q exp = .error .insufficientStock ↔
      GetTotalAvailableStockTx L pid < q)
    ∧ (∀ L', ReserveStockTx L oid pid q exp = .ok L' →
        orderQtySum L' oid = orderQtySum L oid + q)
    ∧ ReserveStockTx twoWarehouseLedger 1 7 5 0 = .ok twoWarehouseAllocated := by
  have hsnd := reserveLoop_snd oid pid exp (activeRowsFor L pid) q L (le_of_lt hq)
    (activeRowsFor_avail_nonneg hinv)
  rw [getTotalAvailableStockTx_eq]
  refine ⟨?_, ?_, by decide⟩
  · by_cases hc : (reserveLoop oid pid exp (activeRowsFor L pid) q L).2 > 0
    · simp only [ReserveStockTx, hc, if_pos]
      simp only [true_iff]
      omega
    · simp only [ReserveStockTx, hc, if_neg, if_false]
      constructor
      · intro h
        exact absurd h (by simp)
      · intro h
        omega
  · intro L' hL'
    by_cases hc : (reserveLoop oid pid exp (activeRowsFor L pid) q L).2 > 0
    · simp only [ReserveStockTx, hc, if_pos] at hL'
      exact absurd hL' (by simp)
    · simp only [ReserveStockTx, hc, if_neg, if_false] at hL'
      have hL'eq : L' = (reserveLoop oid pid exp (activeRowsFor L pid) q L).1 := by
        cases hL'
        rfl
      subst hL'eq
      rw [reserveLoop_orderQtySum]
      omega

/-- Witness for C2 at the scenario ledger. -/
theorem reserveStockTx_greedy_witness :
    (ReserveStockTx twoWarehouseLedger 1 7 5 0 = .error .insufficientStock ↔
      GetTotalAvailableStockTx twoWarehouseLedger 7 < 5)
    ∧ orderQtySum twoWarehouseAllocated 1 = orderQtySum twoWarehouseLedger 1 + 5
    ∧ ReserveStockTx twoWarehouseLedger 1 7 5 0 = .ok twoWarehouseAllocated := by
  have h := reserveStockTx_greedy twoWarehouseLedger 1 7 5 0 (by decide) (by decide)
  exact ⟨h.1, h.2.1 twoWarehouseAllocated (by decide), h.2.2⟩

theorem GetOrderDetailTx_update (orders : List Order) (oid : Nat) (st : OrderStatus) :
    GetOrderDetailTx (UpdateOrderStatusTx orders oid st) oid =
      (GetOrderDetailTx orders oid).map
        (fun od => if od.id = oid then { od with status := st } else od) := by
  rw [GetOrderDetailTx, UpdateOrderStatusTx, GetOrderDetailTx]
  rw [List.find?_map]
  have hp : ((fun od : Order => od.id == oid) ∘
      fun od : Order => if od.id = oid then { od with status := st } else od) =
      (fun od : Order => od.id == oid) := by
    funext od
    simp only [Function.comp]
    split <;> rfl
  rw [hp]

/-! ### The claims: C5 -/

/-- C5: on an order whose status is not Pending, both `PayOrder` and
`CancelOrder` return `InvalidOrderStatus` and leave the whole state (order
rows, warehouse-stock rows and reservation fragments) unchanged; and a second
`CancelOrder` after a successful one returns `InvalidOrderStatus` with the
state unchanged, so there is no double release. -/
theorem nonPending_rejected (s : AppState) (oid : Nat) (od : Order)
    (hf : GetOrderDetailTx s.orders oid = some od)
    (hnp : od.status ≠ OrderStatus.pending) :
    PayOrder s oid = (.error .errInvalidOrderStatus, s) ∧
    CancelOrder s oid = (.error .errInvalidOrderStatus, s) ∧
    (∀ (s2 : AppState) (od2 : Order), GetOrderDetailTx s2.orders oid = some od2 →
      od2.status = OrderStatus.pending →
      (CancelOrder s2 oid).1 = .ok () ∧
      CancelOrder (CancelOrder s2 oid).2 oid =
        (.error .errInvalidOrderStatus, (CancelOrder s2 oid).2)) := by
  refine ⟨?_, ?_, ?_⟩
  · simp [PayOrder, hf, hnp]
  · simp [CancelOrder, hf, hnp]
  · intro s2 od2 hf2 hp2
    have hc1 : CancelOrder s2 oid = (.ok (),
        { s2 with ledger := ReleaseReservationsTx s2.ledger oid
                  orders := UpdateOrderStatusTx s2.orders oid .canceled }) := by
      simp [CancelOrder, hf2, hp2]
    have hid : od2.id = oid := by
      have := List.find?_some hf2
      simpa using this
    have hf3 : GetOrderDetailTx (UpdateOrderStatusTx s2.orders oid .canceled) oid =
        some { od2 with status := OrderStatus.canceled } := by
      rw [GetOrderDetailTx_update, hf2]
      simp [hid]
    constructor
    · rw [hc1]
    · rw [hc1]
      simp [CancelOrder, hf3]

/-- Witness for C5: a canceled order rejects both operations, and a second
cancel of a pending order is rejected without touching the state again. -/
theorem nonPending_rejected_witness :
    PayOrder canceledOrderState 1 = (.error .errInvalidOrderStatus, canceledOrderState) ∧
    CancelOrder canceledOrderState 1 = (.error .errInvalidOrderStatus, canceledOrderState) ∧
    (CancelOrder pendingOrderState 1).1 = .ok () ∧
    CancelOrder (CancelOrder pendingOrderState 1).2 1 =
      (.error .errInvalidOrderStatus, (CancelOrder pendingOrderState 1).2) := by
  have h := nonPending_rejected canceledOrderState 1 ⟨1, 9, .canceled⟩ (by decide) (by decide)
  have h2 := h.2.2 pendingOrderState ⟨1, 9, .pending⟩ (by decide) (by decide)
  exact ⟨h.1, h.2.1, h2.1, h2.2⟩

/-! ### The claims: C8 -/

/-- C8 is false as stated: on an order id with no persisted order, `PayOrder`
and `CancelOrder` return the Internal error kind, which is distinct from
NotFound. -/
theorem missingOrder_notFound_counterexample :
    GetOrderDetailTx emptyOrdersState.orders 1 = none ∧
    PayOrder emptyOrdersState 1 = (.error .errInternal, emptyOrdersState) ∧
    CancelOrder emptyOrdersState 1 = (.error .errInternal, emptyOrdersState) ∧
    ErrorType.errInternal ≠ ErrorType.errNotFound := by
  decide

/-- C8 (amended): for every order id that refers to no persisted order,
`PayOrder` and `CancelOrder` return the Internal error kind, with no state
change. -/
theorem missingOrder_internal (s : AppState) (oid : Nat)
    (h : GetOrderDetailTx s.orders oid = none) :
    PayOrder s oid = (.error .errInternal, s) ∧
    CancelOrder s oid = (.error .errInternal, s) := by
  constructor
  · simp [PayOrder, h]
  · simp [CancelOrder, h]

/-- Witness for the amended C8. -/
theorem missingOrder_internal_witness :
    PayOrder emptyOrdersState 1 = (.error .errInternal, emptyOrdersState) ∧
    CancelOrder emptyOrdersState 1 = (.error .errInternal, emptyOrdersState) :=
  missingOrder_internal emptyOrdersState 1 (by decide)

/-! ### The claims: C7 -/

/-- C7: `CreateOrder` (through the REST validation pipeline) returns
`InvalidRequest` on an empty item list and on any non-positive item
quantity, and in those cases the state — orders, order items, reservation
fragments and warehouse-stock rows — is returned unchanged. -/
theorem createOrder_rejects_invalid (s : AppState) (uid : Nat)
    (items : List OrderItemRequest) (exp : Int) :
    (items = [] → CreateOrder s uid items exp = (.error .errInvalidRequest, s)) ∧
    (items = [] → uid ≠ 0 →
      handlerCreateOrder s uid items exp = (.error .errInvalidRequest, s)) ∧
    (∀ it ∈ items, it.quantity ≤ 0 →
      handlerCreateOrder s uid items exp = (.error .errInvalidRequest, s)) := by
  refine ⟨?_, ?_, ?_⟩
  · intro he
    rw [he]
    simp [CreateOrder]
  · intro he huid
    rw [he]
    simp [handlerCreateOrder, validateOrderRequest, huid, CreateOrder]
  · intro it hit hq
    have hval : validateOrderRequest items = false := by
      rw [validateOrderRequest]
      refine (Bool.eq_false_iff).mpr ?_
      intro hall
      have := List.all_eq_true.mp hall it hit
      simp only [Bool.and_eq_true, decide_eq_true_eq] at this
      omega
    simp [handlerCreateOrder, hval]

/-- Witness for C7: a single item with quantity 0. -/
theorem createOrder_rejects_invalid_witness :
    handlerCreateOrder emptyOrdersState 5 [⟨3, 0⟩] 0 =
      (.error .errInvalidRequest, emptyOrdersState) :=
  (createOrder_rejects_invalid emptyOrdersState 5 [⟨3, 0⟩] 0).2.2
    ⟨3, 0⟩ (List.mem_singleton.mpr rfl) (by decide)

/-! ### The claims: C10 -/

/-- C10: the pay and cancel handlers read the caller identity only to check
authentication; for any two authenticated callers the result and the state
change are identical, and a Pending order can be paid or cancelled by a
caller who is not its owner. -/
theorem payCancel_ignore_caller (s : AppState) (u1 u2 oid : Nat)
    (h1 : u1 ≠ 0) (h2 : u2 ≠ 0) :
    handlerPayOrder s u1 oid = handlerPayOrder s u2 oid ∧
    handlerCancelOrder s u1 oid = handlerCancelOrder s u2 oid ∧
    (∀ od : Order, GetOrderDetailTx s.orders oid = some od →
      od.status = OrderStatus.pending →
      (handlerPayOrder s u1 oid).1 = .ok () ∧
      (handlerCancelOrder s u1 oid).1 = .ok ()) := by
  refine ⟨?_, ?_, ?_⟩
  · simp [handlerPayOrder, h1, h2]
  · simp [handlerCancelOrder, h1, h2]
  · intro od hf hp
    constructor
    · simp [handlerPayOrder, h1, PayOrder, hf, hp]
    · simp [handlerCancelOrder, h1, CancelOrder, hf, hp]

/-- Witness for C10: caller 5 pays and cancels the Pending order owned by
user 9, and callers 5 and 7 observe identical outcomes. -/
theorem payCancel_ignore_caller_witness :
    handlerPayOrder pendingOrderState 5 1 = handlerPayOrder pendingOrderState 7 1 ∧
    handlerCancelOrder pendingOrderState 5 1 = handlerCancelOrder pendingOrderState 7 1 ∧
    (handlerPayOrder pendingOrderState 5 1).1 = .ok () ∧
    (handlerCancelOrder pendingOrderState 5 1).1 = .ok () := by
  have h := payCancel_ignore_caller pendingOrderState 5 7 1 (by decide) (by decide)
  have h3 := h.2.2 ⟨1, 9, .pending⟩ (by decide) (by decide)
  exact ⟨h.1, h.2.1, h3.1, h3.2⟩

/-! ### The claims: C9 -/

/-- C9: the expiration consumer acknowledges and drops undecodable payloads;
for a decoded payload it negatively acknowledges with requeue exactly when
the cancel call fails transiently (network error or a status outside
200..499); any 4xx outcome, such as an already-terminal order, is
acknowledged. -/
theorem consumer_ack_nack (m : OrderExpirationMessage) (c : CallResult) :
    handleExpirationMsg none c = .ack ∧
    (handleExpirationMsg (some m) c = .nackRequeue ↔
      (c = .netErr ∨ ∃ code, c = .status code ∧ (code < 200 ∨ 500 ≤ code))) ∧
    (∀ code, 400 ≤ code → code ≤ 499 →
      handleExpirationMsg (some m) (.status code) = .ack) := by
  refine ⟨rfl, ?_, ?_⟩
  · cases c with
    | netErr =>
      simp [handleExpirationMsg, callCancelOrderAPIFails]
    | status code =>
      by_cases h : code < 200 ∨ 500 ≤ code
      · have hb : callCancelOrderAPIFails (.status code) = true := by
          simp only [callCancelOrderAPIFails, Bool.or_eq_true, decide_eq_true_eq]
          omega
        simp only [handleExpirationMsg, hb, if_pos]
        simp [h]
      · have hb : callCancelOrderAPIFails (.status code) = false := by
          simp only [callCancelOrderAPIFails, Bool.or_eq_false_iff]
          constructor <;> (simp only [decide_eq_false_iff_not]; omega)
        simp only [handleExpirationMsg, hb]
        simp [h]
  · intro code h4 h9
    have hb : callCancelOrderAPIFails (.status code) = false := by
      simp only [callCancelOrderAPIFails, Bool.or_eq_false_iff]
      constructor <;> (simp only [decide_eq_false_iff_not]; omega)
    simp [handleExpirationMsg, hb]

/-- Witness for C9 at a 404 outcome. -/
theorem consumer_ack_nack_witness :
    handleExpirationMsg (some ⟨1, 9, 0⟩) (.status 404) = .ack :=
  (consumer_ack_nack ⟨1, 9, 0⟩ (.status 404)).2.2 404 (by decide) (by decide)

/-! ### The claims: C6 -/

/-- C6 concerns the locking query of `ReserveStockTx`, which has no ORDER BY:
the rows are locked and walked in database return order.  On a table whose
active rows for product 1 sit in descending warehouse order, the walk visits
warehouse 2 before warehouse 1 — not ascending by warehouse identifier. -/
theorem allocation_walk_not_sorted :
    ReserveStockTx unorderedLedger 1 1 2 0 = .ok unorderedAllocated ∧
    (GetReservationsByOrderTx unorderedAllocated 1).map (fun f => f.warehouseID) = [2, 1] ∧
    ¬ ((GetReservationsByOrderTx unorderedAllocated 1).map
        (fun f => f.warehouseID)).Sorted (· ≤ ·) := by
  refine ⟨by decide, by decide, by decide⟩

end ECom
